import Mathlib

/-!
Verification of clightning-dumpkeys (src/clightning-dumpkeys.c) against its
natural-language specification.

The tool reads a 32-byte hsm secret, whitens it with HKDF-SHA256 under an
incrementing 4-byte salt until libwally accepts the result as a BIP32 seed,
derives m/0/0 with the private-key flag, re-roots the derived key
(depth := 0, parent fingerprint := 0), serializes it with the mainnet
private version tag and prints one Base58Check line.

The libwally-core primitives (hkdf_sha256, bip32_key_from_seed,
bip32_key_from_parent, sha256d-based checksum) are external trusted code;
they are left abstract as fields of a `Lib` record.  The byte layout of
`bip32_key_serialize` and the Base58Check rendering of
`wally_base58_from_bytes` are modelled from the spec (section 4.3), which
pins them down exactly.
-/

/-- libwally `struct ext_key`: the fields of the extended key that the
driver reads or writes.  Multi-byte fields are kept as natural numbers;
serialization turns them into their fixed-width big-endian byte strings. -/
structure ext_key where
  chain_code : Nat
  parent160 : Nat
  depth : Nat
  priv_key : Nat
  child_num : Nat
  version : Nat
deriving DecidableEq

/-- The trusted external primitives of libwally-core / ccan, specified only
at their interface boundary (spec sections 1 and 6): HKDF-SHA256 taking
salt bytes, input key material bytes and an info label; BIP32 master-key
construction from a seed (may reject the seed); BIP32 child derivation
(may fail); and the double-SHA256 checksum value used by Base58Check. -/
structure Lib where
  hkdf_sha256 : List Nat → List Nat → String → List Nat
  bip32_key_from_seed : List Nat → Nat → Nat → Option ext_key
  bip32_key_from_parent : ext_key → Nat → Nat → Option ext_key
  checksum : List Nat → Nat

/-- Modelled from the spec: libwally constant, mainnet private version tag
0x0488ADE4 (spec section 8 scenario). -/
def BIP32_VER_MAIN_PRIVATE : Nat := 0x0488ADE4

/-- Modelled from the spec: libwally constant, mainnet public version tag
0x0488B21E (spec section 8 scenario). -/
def BIP32_VER_MAIN_PUBLIC : Nat := 0x0488B21E

/-- Modelled from the spec: libwally flag selecting private-key material in
derivation and serialization. -/
def BIP32_FLAG_KEY_PRIVATE : Nat := 0

/-- The four bytes of the u32 `salt` variable as passed by address to
hkdf_sha256 (little-endian, value taken modulo 2^32). -/
def le4 (n : Nat) : List Nat :=
  [n % 256, n / 256 % 256, n / 2 ^ 16 % 256, n / 2 ^ 24 % 256]

/-- Big-endian byte string of fixed width `k` for the value `n % 256^k`. -/
def beBytes : Nat → Nat → List Nat
  | 0, _ => []
  | k + 1, n => beBytes k (n / 256) ++ [n % 256]

/-- Modelled from the spec: libwally `bip32_key_serialize` with
BIP32_FLAG_KEY_PRIVATE, the only flag the driver uses.  Spec section 4.3:
4 bytes version tag, 1 byte depth, 4 bytes parent fingerprint (the first
4 bytes of the 20-byte parent160 field), 4 bytes child index, 32 bytes
chain code, then 0x00 followed by the 32-byte private scalar; 78 bytes. -/
def bip32_key_serialize (k : ext_key) : List Nat :=
  beBytes 4 k.version ++ beBytes 1 k.depth ++ (beBytes 20 k.parent160).take 4
    ++ beBytes 4 k.child_num ++ beBytes 32 k.chain_code
    ++ (0 :: beBytes 32 k.priv_key)

/-- The Base58 alphabet. -/
def b58chars : List Char :=
  "123456789ABCDEFGHJKLMNPQRSTUVWXYZabcdefghijkmnopqrstuvwxyz".toList

/-- Character for a Base58 digit. -/
def b58Char (d : Nat) : Char := b58chars.getD d '?'

/-- Base58 digit of a character. -/
def b58Index (c : Char) : Nat := b58chars.indexOf c

/-- Number of leading zero bytes. -/
def countLeadingZeros : List Nat → Nat
  | [] => 0
  | b :: bs => if b = 0 then countLeadingZeros bs + 1 else 0

/-- Number of leading '1' characters of a Base58 string. -/
def countLeadingOnes : List Char → Nat
  | [] => 0
  | c :: cs => if c = '1' then countLeadingOnes cs + 1 else 0

/-- Modelled from the spec: plain Base58 rendering of a byte string (spec
section 4.3): each leading zero byte becomes '1', the remainder is the
base-58 numeral of the bytes read as a big-endian number. -/
def base58_encode (bytes : List Nat) : List Char :=
  List.replicate (countLeadingZeros bytes) '1'
    ++ (Nat.digits 58 (Nat.ofDigits 256 bytes.reverse)).reverse.map b58Char

/-- Modelled from the spec: Base58 decoding, the inverse reading of
`base58_encode`: leading '1' characters become zero bytes, the rest is
read as a base-58 numeral and written out in base 256 big-endian. -/
def base58_decode (s : List Char) : List Nat :=
  List.replicate (countLeadingOnes s) 0
    ++ (Nat.digits 256 (Nat.ofDigits 58 (s.map b58Index).reverse)).reverse

/-- Modelled from the spec: libwally `wally_base58_from_bytes` with
BASE58_FLAG_CHECKSUM (spec section 4.3): append the 4-byte double-SHA256
checksum of the payload, then Base58-encode the result. -/
def base58check_encode (lib : Lib) (payload : List Nat) : List Char :=
  base58_encode (payload ++ beBytes 4 (lib.checksum payload))

/-- The do-while seed-whitening loop of `populate_secretstuff`
(src/clightning-dumpkeys.c lines 85-94): HKDF-SHA256 the secret with the
current 4-byte salt and the literal info label, bump the salt, and retry
until `bip32_key_from_seed` accepts.  The C loop is unbounded; `fuel`
bounds the number of iterations modelled, `none` meaning the loop is
still running after `fuel` attempts. -/
def whitenLoop (lib : Lib) (secret : List Nat) (salt : Nat) :
    Nat → Option (Nat × ext_key)
  | 0 => none
  | fuel + 1 =>
    let seed := lib.hkdf_sha256 (le4 salt) secret "bip32 seed"
    match lib.bip32_key_from_seed seed BIP32_VER_MAIN_PRIVATE 0 with
    | some k => some (salt, k)
    | none => whitenLoop lib secret (salt + 1) fuel

/-- The diagnostics the program can print to standard error. -/
inductive Msg where
  | usageMsg
  | openErr
  | readErr
  | cantDeriveChild
  | cantDerivePrivate
deriving DecidableEq

/-- `populate_secretstuff` (src/clightning-dumpkeys.c lines 62-129): run
the whitening loop from salt 0, then derive child 0 of the master and
child 0 of that child, both with BIP32_FLAG_KEY_PRIVATE.  A failing child
derivation is fatal (exit 1 with a message); `none` models the unbounded
whitening loop not having terminated within `fuel` iterations. -/
def populate_secretstuff (lib : Lib) (secret : List Nat) (fuel : Nat) :
    Option (Except Msg ext_key) :=
  match whitenLoop lib secret 0 fuel with
  | none => none
  | some (_, master_extkey) =>
    match lib.bip32_key_from_parent master_extkey 0 BIP32_FLAG_KEY_PRIVATE with
    | none => some (Except.error Msg.cantDeriveChild)
    | some child_extkey =>
      match lib.bip32_key_from_parent child_extkey 0 BIP32_FLAG_KEY_PRIVATE with
      | none => some (Except.error Msg.cantDerivePrivate)
      | some k => some (Except.ok k)

/-- One read(2) event observed by `read_all`: the syscall returns a chunk
of bytes (the empty chunk being end-of-file), is interrupted (EINTR), or
fails with another error. -/
inductive ReadEv where
  | data ( bytes : List Nat)
  | eintr
  | rerror
deriving DecidableEq

/-- `read_all` (src/clightning-dumpkeys.c lines 43-58) over a script of
read events: loop while bytes remain to be read; retry on EINTR; give up
on end-of-file or error; otherwise advance the buffer by the returned
chunk (a read never returns more than was asked, hence `take size`).
Returns the success flag, the bytes written into the buffer (a prefix of
the requested size), and the unconsumed events.  An exhausted script reads
as end-of-file. -/
def read_all : List ReadEv → Nat → Bool × List Nat × List ReadEv
  | evs, 0 => (true, [], evs)
  | [], _ + 1 => (false, [], [])
  | ReadEv.eintr :: rest, size + 1 => read_all rest (size + 1)
  | ReadEv.rerror :: rest, _ + 1 => (false, [], rest)
  | ReadEv.data c :: rest, size + 1 =>
    let t := c.take (size + 1)
    if t.isEmpty then (false, [], rest)
    else
      let r := read_all rest (size + 1 - t.length)
      (r.1, t ++ r.2.1, r.2.2)

/-- The read events produced by an open file descriptor on a regular file:
a single read delivers the (remaining) contents, a further read delivers
end-of-file (the exhausted script). -/
def fileScript (contents : List Nat) : List ReadEv := [ReadEv.data contents]

/-- `load_hsm` (src/clightning-dumpkeys.c lines 131-141): open the secret
file (falling back to "hsm_secret" when the pointer is NULL), read exactly
32 bytes into `secretstuff.hsm_secret`, then run `populate_secretstuff`.
Failure to open or to read 32 bytes is fatal (exit 1).  The file system is
a partial map from paths to contents; `none` for a path is a failing
open(2). -/
def load_hsm (lib : Lib) (secretfile : Option String)
    (fs : String → Option (List Nat)) (fuel : Nat) :
    Option (Except Msg ext_key) :=
  match fs (secretfile.getD "hsm_secret") with
  | none => some (Except.error Msg.openErr)
  | some contents =>
    match read_all (fileScript contents) 32 with
    | (false, _, _) => some (Except.error Msg.readErr)
    | (true, secret, _) => populate_secretstuff lib secret fuel

/-- The per-variant rewriting in `dump_xpriv`'s loop (lines 178-181):
overwrite the version tag, zero the depth and zero the whole parent160
field before serializing. -/
def rekey (k : ext_key) (ver : Nat) : ext_key :=
  { k with version := ver, depth := 0, parent160 := 0 }

/-- The `versions` table of `dump_xpriv` (lines 166-174): a single active
"standard" mainnet-private variant. -/
def versions : List (String × Nat) := [("standard", BIP32_VER_MAIN_PRIVATE)]

/-- The 78-byte payload `dump_xpriv` serializes for the derived key under
`versions`' single version tag. -/
def dumped_payload (k : ext_key) : List Nat :=
  bip32_key_serialize (rekey k BIP32_VER_MAIN_PRIVATE)

/-- The Base58Check line `dump_xpriv` prints for the derived key. -/
def dumped_line (lib : Lib) (k : ext_key) : List Char :=
  base58check_encode lib (dumped_payload k)

/-- `dump_xpriv` (src/clightning-dumpkeys.c lines 153-198): load and
derive, then for each entry of `versions` rewrite the key, serialize it
(the assert treats serialization as infallible), Base58Check-encode and
print one line. -/
def dump_xpriv (lib : Lib) (secretfile : Option String)
    (fs : String → Option (List Nat)) (fuel : Nat) :
    Option (Except Msg (List String)) :=
  match load_hsm lib secretfile fs fuel with
  | none => none
  | some (Except.error m) => some (Except.error m)
  | some (Except.ok key) =>
    some (Except.ok (versions.map (fun v =>
      String.mk (base58check_encode lib (bip32_key_serialize (rekey key v.2))))))

/-- `main` together with `usage` (src/clightning-dumpkeys.c lines 200-216):
with anything but exactly two argv entries print usage and exit 42;
otherwise run `dump_xpriv` on argv[1] and exit 0, or exit 1 on a fatal
error.  The result is the exit code, the stdout lines and the stderr
messages; `none` models the non-terminating whitening loop. -/
def runMain (lib : Lib) (argv : List String)
    (fs : String → Option (List Nat)) (fuel : Nat) :
    Option (Nat × List String × List Msg) :=
  if argv.length ≠ 2 then some (42, [], [Msg.usageMsg])
  else
    match dump_xpriv lib (some (argv.getD 1 "")) fs fuel with
    | none => none
    | some (Except.error m) => some (1, [], [m])
    | some (Except.ok lines) => some (0, lines, [])

/-- The bytes printf writes to standard output: each line followed by a
newline character. -/
def render_stdout (lines : List String) : List Char :=
  (lines.map (fun l => l.data ++ [Char.ofNat 10])).flatten

/-- A file system holding exactly one file. -/
def singleFS (path : String) (contents : List Nat) :
    String → Option (List Nat) :=
  fun q => if q = path then some contents else none

/-! ### Byte-string lemmas -/

theorem beBytes_length (k n : Nat) : (beBytes k n).length = k := by
  induction k generalizing n with
  | zero => rfl
  | succ k ih => simp [beBytes, ih]

theorem beBytes_mem_lt {k n x : Nat} (h : x ∈ beBytes k n) : x < 256 := by
  induction k generalizing n with
  | zero => simp [beBytes] at h
  | succ k ih =>
    simp only [beBytes, List.mem_append, List.mem_singleton] at h
    rcases h with h | h
    · exact ih h
    · subst h; exact Nat.mod_lt _ (by norm_num)

/-! ### Base58 alphabet facts -/

theorem b58Index_b58Char : ∀ d, d < 58 → b58Index (b58Char d) = d := by decide

theorem b58Char_ne_one : ∀ d, d < 58 → d ≠ 0 → b58Char d ≠ '1' := by decide

/-- Base58 round trip: decoding an encoded byte string whose first byte is
nonzero recovers the byte string. -/
theorem base58_decode_encode (b : Nat) (t : List Nat) (hb : b ≠ 0)
    (hlt : ∀ x ∈ b :: t, x < 256) :
    base58_decode (base58_encode (b :: t)) = b :: t := by
  have h256 : (1 : Nat) < 256 := by norm_num
  have hL : (b :: t).reverse = t.reverse ++ [b] := by simp
  have hmem : ∀ x ∈ (b :: t).reverse, x < 256 := by
    intro x hx; exact hlt x (List.mem_reverse.mp hx)
  have hlast : ∀ h : (b :: t).reverse ≠ [], ((b :: t).reverse).getLast h ≠ 0 := by
    intro h
    have h1 : (b :: t).reverse.getLast? = some (((b :: t).reverse).getLast h) :=
      List.getLast?_eq_getLast _ h
    have h2 : (b :: t).reverse.getLast? = some b := by
      rw [hL]; exact List.getLast?_concat _
    rw [h1] at h2
    injection h2 with h3
    rw [h3]
    exact hb
  have hdig : Nat.digits 256 (Nat.ofDigits 256 (b :: t).reverse) = (b :: t).reverse :=
    Nat.digits_ofDigits 256 h256 _ hmem hlast
  set N : Nat := Nat.ofDigits 256 (b :: t).reverse with hN
  have hN0 : N ≠ 0 := by
    intro h0
    rw [h0, Nat.digits_zero] at hdig
    simp [hL] at hdig
  have hDne : Nat.digits 58 N ≠ [] := Nat.digits_ne_nil_iff_ne_zero.mpr hN0
  rcases (Nat.digits 58 N).eq_nil_or_concat with hnil | ⟨D1, d0, hD⟩
  · exact absurd hnil hDne
  rw [List.concat_eq_append] at hD
  have hd0 : d0 ≠ 0 := by
    have hlast58 := Nat.getLast_digit_ne_zero 58 hN0
    have h1 : (Nat.digits 58 N).getLast? =
        some ((Nat.digits 58 N).getLast (Nat.digits_ne_nil_iff_ne_zero.mpr hN0)) :=
      List.getLast?_eq_getLast _ _
    have h2 : (Nat.digits 58 N).getLast? = some d0 := by
      rw [hD]; exact List.getLast?_concat _
    rw [h1] at h2
    injection h2 with h3
    rwa [h3] at hlast58
  have hd0mem : d0 ∈ Nat.digits 58 N := by rw [hD]; simp
  have hd0lt : d0 < 58 := Nat.digits_lt_base (by norm_num) hd0mem
  have hrev : (Nat.digits 58 N).reverse = d0 :: D1.reverse := by
    rw [hD, List.reverse_concat]
  have hzeros : countLeadingZeros (b :: t) = 0 := by
    simp [countLeadingZeros, hb]
  have henc : base58_encode (b :: t)
      = (d0 :: D1.reverse).map b58Char := by
    rw [base58_encode, hzeros, ← hN, hrev]
    simp
  have hones : countLeadingOnes ((d0 :: D1.reverse).map b58Char) = 0 := by
    simp only [List.map_cons, countLeadingOnes]
    rw [if_neg (b58Char_ne_one d0 hd0lt hd0)]
  have hmapid : ((d0 :: D1.reverse).map b58Char).map b58Index
      = d0 :: D1.reverse := by
    rw [List.map_map]
    have : ∀ d ∈ d0 :: D1.reverse, (b58Index ∘ b58Char) d = d := by
      intro d hd
      have hdm : d ∈ Nat.digits 58 N := by
        rw [← hrev] at hd
        exact List.mem_reverse.mp hd
      exact b58Index_b58Char d (Nat.digits_lt_base (by norm_num) hdm)
    rw [List.map_congr_left this]
    simp
  rw [henc, base58_decode, hones, hmapid, ← hrev, List.reverse_reverse,
    Nat.ofDigits_digits, hdig]
  simp

/-! ### Serialization shape -/

theorem dumped_payload_eq (k : ext_key) :
    dumped_payload k =
      4 :: 136 :: 173 :: 228 :: 0 :: 0 :: 0 :: 0 :: 0 ::
        (beBytes 4 k.child_num ++ beBytes 32 k.chain_code
          ++ 0 :: beBytes 32 k.priv_key) := by
  have h1 : beBytes 4 BIP32_VER_MAIN_PRIVATE = [4, 136, 173, 228] := by decide
  have h2 : beBytes 1 0 = [0] := by decide
  have h3 : (beBytes 20 0).take 4 = [0, 0, 0, 0] := by decide
  show bip32_key_serialize (rekey k BIP32_VER_MAIN_PRIVATE) = _
  simp only [bip32_key_serialize, rekey, h1, h2, h3]
  simp

theorem dumped_payload_length (k : ext_key) : (dumped_payload k).length = 78 := by
  rw [dumped_payload_eq]
  simp [beBytes_length]

theorem bip32_key_serialize_mem_lt (k : ext_key) :
    ∀ x ∈ bip32_key_serialize k, x < 256 := by
  intro x hx
  unfold bip32_key_serialize at hx
  rcases List.mem_append.mp hx with h | h
  · rcases List.mem_append.mp h with h | h
    · rcases List.mem_append.mp h with h | h
      · rcases List.mem_append.mp h with h | h
        · rcases List.mem_append.mp h with h | h
          · exact beBytes_mem_lt h
          · exact beBytes_mem_lt h
        · exact beBytes_mem_lt (List.mem_of_mem_take h)
      · exact beBytes_mem_lt h
    · exact beBytes_mem_lt h
  · rcases List.mem_cons.mp h with rfl | h
    · norm_num
    · exact beBytes_mem_lt h

theorem dumped_payload_mem_lt (k : ext_key) :
    ∀ x ∈ dumped_payload k, x < 256 :=
  fun x hx => bip32_key_serialize_mem_lt (rekey k BIP32_VER_MAIN_PRIVATE) x hx

/-! ### Whitening-loop lemmas -/

theorem whitenLoop_spec (lib : Lib) (secret : List Nat) :
    ∀ (fuel salt s : Nat) (key : ext_key),
      whitenLoop lib secret salt fuel = some (s, key) →
      salt ≤ s ∧ s < salt + fuel ∧
      lib.bip32_key_from_seed (lib.hkdf_sha256 (le4 s) secret "bip32 seed")
        BIP32_VER_MAIN_PRIVATE 0 = some key ∧
      ∀ j, salt ≤ j → j < s →
        lib.bip32_key_from_seed (lib.hkdf_sha256 (le4 j) secret "bip32 seed")
          BIP32_VER_MAIN_PRIVATE 0 = none := by
  intro fuel
  induction fuel with
  | zero => intro salt s key h; simp [whitenLoop] at h
  | succ f ih =>
    intro salt s key h
    simp only [whitenLoop] at h
    cases hc : lib.bip32_key_from_seed
        (lib.hkdf_sha256 (le4 salt) secret "bip32 seed")
        BIP32_VER_MAIN_PRIVATE 0 with
    | some k =>
      rw [hc] at h
      simp only [Option.some.injEq, Prod.mk.injEq] at h
      obtain ⟨rfl, rfl⟩ := h
      refine ⟨Nat.le_refl _, by omega, hc, ?_⟩
      intro j h1 h2
      omega
    | none =>
      rw [hc] at h
      obtain ⟨h1, h2, h3, h4⟩ := ih (salt + 1) s key h
      refine ⟨by omega, by omega, h3, ?_⟩
      intro j hj1 hj2
      rcases Nat.eq_or_lt_of_le hj1 with rfl | hj3
      · exact hc
      · exact h4 j hj3 hj2

theorem whitenLoop_mono (lib : Lib) (secret : List Nat) :
    ∀ (fuel fuel2 salt : Nat) (r : Nat × ext_key),
      fuel ≤ fuel2 →
      whitenLoop lib secret salt fuel = some r →
      whitenLoop lib secret salt fuel2 = some r := by
  intro fuel
  induction fuel with
  | zero => intro fuel2 salt r _ h; simp [whitenLoop] at h
  | succ f ih =>
    intro fuel2 salt r hle h
    obtain ⟨f2, rfl⟩ : ∃ f2, fuel2 = f2 + 1 := ⟨fuel2 - 1, by omega⟩
    simp only [whitenLoop] at h ⊢
    cases hc : lib.bip32_key_from_seed
        (lib.hkdf_sha256 (le4 salt) secret "bip32 seed")
        BIP32_VER_MAIN_PRIVATE 0 with
    | some k => rw [hc] at h; exact h
    | none =>
      rw [hc] at h
      exact ih f2 (salt + 1) r (by omega) h

theorem populate_secretstuff_mono (lib : Lib) (secret : List Nat)
    (fuel fuel2 : Nat) (r : Except Msg ext_key) (hle : fuel ≤ fuel2)
    (h : populate_secretstuff lib secret fuel = some r) :
    populate_secretstuff lib secret fuel2 = some r := by
  unfold populate_secretstuff at h ⊢
  cases hw : whitenLoop lib secret 0 fuel with
  | none => rw [hw] at h; exact absurd h (by simp)
  | some p =>
    rw [hw] at h
    rw [whitenLoop_mono lib secret fuel fuel2 0 p hle hw]
    exact h

/-! ### read_all lemmas -/

theorem read_all_length : ∀ (evs : List ReadEv) (size : Nat),
    ((read_all evs size).1 = true → (read_all evs size).2.1.length = size) ∧
    ((read_all evs size).1 = false → (read_all evs size).2.1.length < size) := by
  intro evs
  induction evs with
  | nil =>
    intro size
    cases size with
    | zero => simp [read_all]
    | succ s => simp [read_all]
  | cons ev rest ih =>
    intro size
    cases size with
    | zero => simp [read_all]
    | succ s =>
      cases ev with
      | eintr => simpa [read_all] using ih (s + 1)
      | rerror => simp [read_all]
      | data c =>
        cases c with
        | nil => simp [read_all, List.isEmpty]
        | cons b bs =>
          have hne : ((b :: bs).take (s + 1)).isEmpty = false := by
            simp [List.take_succ_cons, List.isEmpty]
          simp only [read_all, hne, Bool.false_eq_true, if_false]
          have htlen : ((b :: bs).take (s + 1)).length ≤ s + 1 := by
            rw [List.length_take]; omega
          have htpos : 0 < ((b :: bs).take (s + 1)).length := by
            simp [List.take_succ_cons]
          obtain ⟨iht, ihf⟩ := ih (s + 1 - ((b :: bs).take (s + 1)).length)
          constructor
          · intro h
            have := iht h
            simp only [List.length_append]
            omega
          · intro h
            have := ihf h
            simp only [List.length_append]
            omega

theorem read_all_nil_pos (n : Nat) (h : 0 < n) : read_all [] n = (false, [], []) := by
  obtain ⟨m, rfl⟩ : ∃ m, n = m + 1 := ⟨n - 1, by omega⟩
  rfl

/-- Reading 32 bytes from a file holding fewer than 32 bytes fails after
copying the whole file contents. -/
theorem read_all_file_short (c : List Nat) (hlen : c.length < 32) :
    read_all (fileScript c) 32 = (false, c, []) := by
  cases c with
  | nil => rfl
  | cons b bs =>
    show read_all [ReadEv.data (b :: bs)] (31 + 1) = _
    have ht : (b :: bs).take (31 + 1) = b :: bs :=
      List.take_of_length_le (by omega)
    have hpos : 0 < 31 + 1 - (b :: bs).length := by
      simp only [List.length_cons] at hlen ⊢
      omega
    simp only [read_all, ht, List.isEmpty, Bool.false_eq_true, if_false,
      read_all_nil_pos _ hpos]
    simp

/-- Reading 32 bytes from a file holding at least 32 bytes succeeds and
copies exactly the first 32 bytes. -/
theorem read_all_file_full (c : List Nat) (hlen : 32 ≤ c.length) :
    read_all (fileScript c) 32 = (true, c.take 32, []) := by
  obtain ⟨b, bs, rfl⟩ : ∃ b bs, c = b :: bs := by
    cases c with
    | nil => simp at hlen
    | cons b bs => exact ⟨_, _, rfl⟩
  show read_all [ReadEv.data (b :: bs)] (31 + 1) = _
  have htlen : ((b :: bs).take (31 + 1)).length = 32 := by
    rw [List.length_take]
    omega
  have hzero : 31 + 1 - ((b :: bs).take (31 + 1)).length = 0 := by omega
  have ht : ((b :: bs).take (31 + 1)).isEmpty = false := by
    simp [List.take_succ_cons, List.isEmpty]
  simp only [read_all, ht, Bool.false_eq_true, if_false, hzero]
  simp [read_all]

theorem load_hsm_short (lib : Lib) (sf : Option String)
    (fs : String → Option (List Nat)) (fuel : Nat) (c : List Nat)
    (hf : fs (sf.getD "hsm_secret") = some c) (hlen : c.length < 32) :
    load_hsm lib sf fs fuel = some (Except.error Msg.readErr) := by
  unfold load_hsm
  rw [hf]
  dsimp only
  rw [read_all_file_short c hlen]

theorem load_hsm_full (lib : Lib) (sf : Option String)
    (fs : String → Option (List Nat)) (fuel : Nat) (c : List Nat)
    (hf : fs (sf.getD "hsm_secret") = some c) (hlen : 32 ≤ c.length) :
    load_hsm lib sf fs fuel = populate_secretstuff lib (c.take 32) fuel := by
  unfold load_hsm
  rw [hf]
  dsimp only
  rw [read_all_file_full c hlen]

theorem runMain_two (lib : Lib) (prog path : String)
    (fs : String → Option (List Nat)) (fuel : Nat) :
    runMain lib [prog, path] fs fuel =
      match dump_xpriv lib (some path) fs fuel with
      | none => none
      | some (Except.error m) => some (1, [], [m])
      | some (Except.ok lines) => some (0, lines, []) := by
  unfold runMain
  simp [List.getD]

/-! ### Concrete instantiations used by witnesses -/

/-- The all-zero 32-byte secret (the spec section 8 scenario input). -/
def secret32 : List Nat := List.replicate 32 0

/-- A plain concrete extended key. -/
def keyZero : ext_key := ⟨0, 0, 0, 0, 0, 0⟩

/-- A concrete library whose master-key construction rejects exactly the
salt-0 candidate, for exercising the whitening retry. -/
def libSaltTest : Lib :=
  { hkdf_sha256 := fun salt _ _ => salt
  , bip32_key_from_seed := fun s _ _ => if s = le4 0 then none else some keyZero
  , bip32_key_from_parent := fun k i _ =>
      some { k with child_num := i, depth := k.depth + 1 }
  , checksum := fun _ => 0 }

/-- A concrete library where every primitive succeeds. -/
def libOk : Lib :=
  { hkdf_sha256 := fun _ _ _ => List.replicate 32 1
  , bip32_key_from_seed := fun _ v _ => some ⟨0, 0, 0, 0, 0, v⟩
  , bip32_key_from_parent := fun k i _ =>
      some { k with child_num := i, depth := k.depth + 1 }
  , checksum := fun _ => 0 }

/-- The key `libOk` derives for m/0/0. -/
def keyOk : ext_key := ⟨0, 0, 2, 0, 0, BIP32_VER_MAIN_PRIVATE⟩

/-! ### Claim theorems -/

/-- C2: seed whitening feeds HKDF-SHA256 the 32-byte master secret with the
literal info label "bip32 seed" and the 4-byte salt; the salt starts at 0
and goes up by exactly 1 per attempt, so a successful whitening that stops
at salt `s` accepted the candidate built from salt `s` and had
`bip32_key_from_seed` reject the candidate built from every salt `j < s`. -/
theorem whitening_salt_starts_zero_increments (lib : Lib) (secret : List Nat)
    (fuel s : Nat) (key : ext_key)
    (h : whitenLoop lib secret 0 fuel = some (s, key)) :
    lib.bip32_key_from_seed (lib.hkdf_sha256 (le4 s) secret "bip32 seed")
      BIP32_VER_MAIN_PRIVATE 0 = some key
    ∧ (∀ j, j < s →
        lib.bip32_key_from_seed (lib.hkdf_sha256 (le4 j) secret "bip32 seed")
          BIP32_VER_MAIN_PRIVATE 0 = none)
    ∧ (le4 s).length = 4 := by
  obtain ⟨-, -, h3, h4⟩ := whitenLoop_spec lib secret fuel 0 s key h
  exact ⟨h3, fun j hj => h4 j (Nat.zero_le j) hj, rfl⟩

theorem whitening_salt_starts_zero_increments_witness :
    whitenLoop libSaltTest secret32 0 2 = some (1, keyZero)
    ∧ (libSaltTest.bip32_key_from_seed
        (libSaltTest.hkdf_sha256 (le4 1) secret32 "bip32 seed")
        BIP32_VER_MAIN_PRIVATE 0 = some keyZero
      ∧ (∀ j, j < 1 →
          libSaltTest.bip32_key_from_seed
            (libSaltTest.hkdf_sha256 (le4 j) secret32 "bip32 seed")
            BIP32_VER_MAIN_PRIVATE 0 = none)
      ∧ (le4 1).length = 4) :=
  ⟨by decide,
   whitening_salt_starts_zero_increments libSaltTest secret32 2 1 keyZero
     (by decide)⟩

/-- C3: a successful run stores for output exactly the key obtained by two
non-hardened child-0 derivations from the whitened master key (path
m/0/0), both performed with BIP32_FLAG_KEY_PRIVATE. -/
theorem derivation_path_m00 (lib : Lib) (secret : List Nat) (fuel : Nat)
    (key : ext_key)
    (h : populate_secretstuff lib secret fuel = some (Except.ok key)) :
    ∃ s master child,
      whitenLoop lib secret 0 fuel = some (s, master)
      ∧ lib.bip32_key_from_parent master 0 BIP32_FLAG_KEY_PRIVATE = some child
      ∧ lib.bip32_key_from_parent child 0 BIP32_FLAG_KEY_PRIVATE = some key := by
  unfold populate_secretstuff at h
  cases hw : whitenLoop lib secret 0 fuel with
  | none => rw [hw] at h; exact absurd h (by simp)
  | some p =>
    obtain ⟨s, master⟩ := p
    rw [hw] at h
    dsimp only at h
    cases h1 : lib.bip32_key_from_parent master 0 BIP32_FLAG_KEY_PRIVATE with
    | none => rw [h1] at h; exact absurd h (by simp)
    | some child =>
      rw [h1] at h
      dsimp only at h
      cases h2 : lib.bip32_key_from_parent child 0 BIP32_FLAG_KEY_PRIVATE with
      | none => rw [h2] at h; exact absurd h (by simp)
      | some k =>
        rw [h2] at h
        dsimp only at h
        simp only [Option.some.injEq, Except.ok.injEq] at h
        exact ⟨s, master, child, rfl, h1, h ▸ h2⟩

theorem derivation_path_m00_witness :
    populate_secretstuff libOk secret32 1 = some (Except.ok keyOk)
    ∧ ∃ s master child,
        whitenLoop libOk secret32 0 1 = some (s, master)
        ∧ libOk.bip32_key_from_parent master 0 BIP32_FLAG_KEY_PRIVATE
            = some child
        ∧ libOk.bip32_key_from_parent child 0 BIP32_FLAG_KEY_PRIVATE
            = some keyOk :=
  ⟨rfl, derivation_path_m00 libOk secret32 1 keyOk rfl⟩

/-- C4: the run is a deterministic function of the secret-file contents:
two invocations whose secret files hold the same bytes (wherever the file
lives and whatever the program is called) produce identical results —
same exit code, same stdout bytes, same stderr. -/
theorem run_deterministic_in_secret (lib : Lib) (prog prog2 path path2 : String)
    (c : List Nat) (fuel : Nat) :
    runMain lib [prog, path] (singleFS path c) fuel
      = runMain lib [prog2, path2] (singleFS path2 c) fuel := by
  rw [runMain_two, runMain_two]
  unfold dump_xpriv load_hsm
  have h1 : singleFS path c path = some c := by simp [singleFS]
  have h2 : singleFS path2 c path2 = some c := by simp [singleFS]
  rw [show (some path).getD "hsm_secret" = path from rfl,
    show (some path2).getD "hsm_secret" = path2 from rfl, h1, h2]

/-- C7: a secret file holding fewer than 32 bytes makes the run fail with
the read error and general failure exit code 1, printing nothing to
standard output; the library primitives and the whitening fuel are
quantified, so no whitening or derivation step influences the outcome. -/
theorem short_file_fails_before_derivation (lib : Lib) (prog path : String)
    (fs : String → Option (List Nat)) (c : List Nat) (fuel : Nat)
    (hf : fs path = some c) (hlen : c.length < 32) :
    runMain lib [prog, path] fs fuel = some (1, [], [Msg.readErr]) := by
  rw [runMain_two]
  unfold dump_xpriv
  rw [load_hsm_short lib (some path) fs fuel c hf hlen]

theorem short_file_fails_before_derivation_witness :
    singleFS "f" (List.replicate 10 0) "f" = some (List.replicate 10 0)
    ∧ (List.replicate 10 (0 : Nat)).length < 32
    ∧ runMain libOk ["clightning-dumpkeys", "f"]
        (singleFS "f" (List.replicate 10 0)) 1 = some (1, [], [Msg.readErr]) :=
  ⟨rfl, by decide,
   short_file_fails_before_derivation libOk "clightning-dumpkeys" "f"
     (singleFS "f" (List.replicate 10 0)) (List.replicate 10 0) 1 rfl
     (by decide)⟩

/-- C9: `read_all` returns true exactly when it copied the full requested
number of bytes into the buffer; on failure a proper prefix has been
written; an EINTR result is transparently retried; end-of-file (a read
returning no bytes) and any other read error abort with failure; and a
successful partial read is accumulated, the loop continuing with the
remaining byte count. -/
theorem read_all_exact_size_iff :
    (∀ (evs : List ReadEv) (size : Nat),
      (read_all evs size).1 = true ↔ (read_all evs size).2.1.length = size)
    ∧ (∀ (evs : List ReadEv) (size : Nat),
        (read_all evs size).1 = false → (read_all evs size).2.1.length < size)
    ∧ (∀ (evs : List ReadEv) (size : Nat), 0 < size →
        read_all (ReadEv.eintr :: evs) size = read_all evs size)
    ∧ (∀ (evs : List ReadEv) (size : Nat), 0 < size →
        read_all (ReadEv.data [] :: evs) size = (false, [], evs))
    ∧ (∀ (evs : List ReadEv) (size : Nat), 0 < size →
        read_all (ReadEv.rerror :: evs) size = (false, [], evs))
    ∧ (∀ (evs : List ReadEv) (size : Nat) (c : List Nat), 0 < size →
        (c.take size).isEmpty = false →
        read_all (ReadEv.data c :: evs) size
          = ((read_all evs (size - (c.take size).length)).1,
             c.take size ++ (read_all evs (size - (c.take size).length)).2.1,
             (read_all evs (size - (c.take size).length)).2.2)) := by
  refine ⟨?_, ?_, ?_, ?_, ?_, ?_⟩
  · intro evs size
    constructor
    · exact (read_all_length evs size).1
    · intro h
      cases hfl : (read_all evs size).1 with
      | true => rfl
      | false =>
        have := (read_all_length evs size).2 hfl
        omega
  · exact fun evs size => (read_all_length evs size).2
  · intro evs size h
    obtain ⟨s, rfl⟩ : ∃ s, size = s + 1 := ⟨size - 1, by omega⟩
    rfl
  · intro evs size h
    obtain ⟨s, rfl⟩ : ∃ s, size = s + 1 := ⟨size - 1, by omega⟩
    rfl
  · intro evs size h
    obtain ⟨s, rfl⟩ : ∃ s, size = s + 1 := ⟨size - 1, by omega⟩
    rfl
  · intro evs size c h hne
    obtain ⟨s, rfl⟩ : ∃ s, size = s + 1 := ⟨size - 1, by omega⟩
    simp only [read_all, hne, Bool.false_eq_true, if_false]

theorem read_all_exact_size_iff_witness :
    ((read_all [ReadEv.eintr, ReadEv.data [7, 7], ReadEv.data [9]] 3).1 = true
      ↔ (read_all [ReadEv.eintr, ReadEv.data [7, 7], ReadEv.data [9]] 3).2.1.length = 3)
    ∧ (0 < 3
      ∧ read_all [ReadEv.eintr, ReadEv.data [7]] 3 = read_all [ReadEv.data [7]] 3)
    ∧ (0 < 2 ∧ read_all [ReadEv.rerror] 2 = (false, [], [])) :=
  ⟨read_all_exact_size_iff.1 [ReadEv.eintr, ReadEv.data [7, 7], ReadEv.data [9]] 3,
   ⟨by decide, read_all_exact_size_iff.2.2.1 [ReadEv.data [7]] 3 (by decide)⟩,
   ⟨by decide, read_all_exact_size_iff.2.2.2.2.1 [] 2 (by decide)⟩⟩

/-- C10: a secret file longer than 32 bytes is read successfully, only its
first 32 bytes become the master secret, and the run is identical to a run
on a file holding exactly those first 32 bytes. -/
theorem trailing_bytes_ignored (lib : Lib) (prog prog2 path path2 : String)
    (fs fs2 : String → Option (List Nat)) (c : List Nat) (fuel : Nat)
    (hf : fs path = some c) (hlen : 32 ≤ c.length)
    (hf2 : fs2 path2 = some (c.take 32)) :
    read_all (fileScript c) 32 = (true, c.take 32, [])
    ∧ runMain lib [prog, path] fs fuel
        = runMain lib [prog2, path2] fs2 fuel := by
  refine ⟨read_all_file_full c hlen, ?_⟩
  rw [runMain_two, runMain_two]
  unfold dump_xpriv
  have hlen2 : 32 ≤ (c.take 32).length := by
    rw [List.length_take]
    omega
  rw [load_hsm_full lib (some path) fs fuel c hf hlen,
    load_hsm_full lib (some path2) fs2 fuel (c.take 32) hf2 hlen2,
    List.take_take]
  norm_num

theorem trailing_bytes_ignored_witness :
    singleFS "f" (List.replicate 40 5) "f" = some (List.replicate 40 5)
    ∧ 32 ≤ (List.replicate 40 (5 : Nat)).length
    ∧ read_all (fileScript (List.replicate 40 5)) 32
        = (true, (List.replicate 40 5).take 32, [])
    ∧ runMain libOk ["p", "f"] (singleFS "f" (List.replicate 40 5)) 1
        = runMain libOk ["q", "g"]
            (singleFS "g" ((List.replicate 40 5).take 32)) 1 := by
  have h := trailing_bytes_ignored libOk "p" "q" "f" "g"
    (singleFS "f" (List.replicate 40 5))
    (singleFS "g" ((List.replicate 40 5).take 32))
    (List.replicate 40 5) 1 rfl (by decide) rfl
  exact ⟨rfl, by decide, h.1, h.2⟩

/-- Base58Check round trip for a payload with nonzero first byte: decoding
the encoded string recovers the payload followed by its 4 checksum
bytes. -/
theorem base58check_decode_encode (lib : Lib) (b : Nat) (t : List Nat)
    (hb : b ≠ 0) (hlt : ∀ x ∈ b :: t, x < 256) :
    base58_decode (base58check_encode lib (b :: t))
      = (b :: t) ++ beBytes 4 (lib.checksum (b :: t)) := by
  unfold base58check_encode
  rw [List.cons_append]
  apply base58_decode_encode b _ hb
  intro x hx
  rcases List.mem_cons.mp hx with rfl | hx
  · exact hlt x (List.mem_cons_self ..)
  rcases List.mem_append.mp hx with hx | hx
  · exact hlt x (List.mem_cons_of_mem _ hx)
  · exact beBytes_mem_lt hx

/-- C1: when loading and deriving succeed, the run exits 0 having written
exactly one newline-terminated Base58Check line; decoding that line yields
the 78-byte serialized payload followed by the 4 checksum bytes, and the
payload starts with the mainnet private version tag 0x0488ADE4, a 0x00
depth byte and four zero parent-fingerprint bytes, because the driver
re-roots the derived key before serializing. -/
theorem dump_emits_single_rerooted_mainnet_xpriv (lib : Lib)
    (prog path : String) (fs : String → Option (List Nat)) (fuel : Nat)
    (key : ext_key)
    (h : load_hsm lib (some path) fs fuel = some (Except.ok key)) :
    runMain lib [prog, path] fs fuel
        = some (0, [String.mk (dumped_line lib key)], [])
    ∧ render_stdout [String.mk (dumped_line lib key)]
        = dumped_line lib key ++ [Char.ofNat 10]
    ∧ base58_decode (dumped_line lib key)
        = dumped_payload key ++ beBytes 4 (lib.checksum (dumped_payload key))
    ∧ (dumped_payload key).length = 78
    ∧ (beBytes 4 (lib.checksum (dumped_payload key))).length = 4
    ∧ (dumped_payload key).take 4 = [0x04, 0x88, 0xAD, 0xE4]
    ∧ ((dumped_payload key).drop 4).take 1 = [0x00]
    ∧ ((dumped_payload key).drop 5).take 4 = [0, 0, 0, 0] := by
  have hpe := dumped_payload_eq key
  refine ⟨?_, ?_, ?_, dumped_payload_length key, beBytes_length 4 _, ?_, ?_, ?_⟩
  · rw [runMain_two]
    unfold dump_xpriv
    rw [h]
    rfl
  · simp [render_stdout]
  · show base58_decode (base58check_encode lib (dumped_payload key)) = _
    rw [hpe]
    exact base58check_decode_encode lib 4 _ (by norm_num)
      (by rw [← hpe]; exact dumped_payload_mem_lt key)
  · rw [hpe]
    rfl
  · rw [hpe]
    rfl
  · rw [hpe]
    rfl

theorem dump_emits_single_rerooted_mainnet_xpriv_witness :
    load_hsm libOk (some "f") (singleFS "f" secret32) 1 = some (Except.ok keyOk)
    ∧ (runMain libOk ["p", "f"] (singleFS "f" secret32) 1
          = some (0, [String.mk (dumped_line libOk keyOk)], [])
      ∧ render_stdout [String.mk (dumped_line libOk keyOk)]
          = dumped_line libOk keyOk ++ [Char.ofNat 10]
      ∧ base58_decode (dumped_line libOk keyOk)
          = dumped_payload keyOk
            ++ beBytes 4 (libOk.checksum (dumped_payload keyOk))
      ∧ (dumped_payload keyOk).length = 78
      ∧ (beBytes 4 (libOk.checksum (dumped_payload keyOk))).length = 4
      ∧ (dumped_payload keyOk).take 4 = [0x04, 0x88, 0xAD, 0xE4]
      ∧ ((dumped_payload keyOk).drop 4).take 1 = [0x00]
      ∧ ((dumped_payload keyOk).drop 5).take 4 = [0, 0, 0, 0]) :=
  ⟨rfl,
   dump_emits_single_rerooted_mainnet_xpriv libOk "p" "f"
     (singleFS "f" secret32) 1 keyOk rfl⟩

/-- C5: every terminating run exits with code 0, 1 or 42; the code is 42
exactly when the argument count differs from 2; with two arguments, a
fatal runtime failure (open, read, or child derivation) exits 1 and a
successful dump exits 0. -/
theorem exit_code_convention (lib : Lib) (argv : List String)
    (fs : String → Option (List Nat)) (fuel : Nat)
    (r : Nat × List String × List Msg)
    (h : runMain lib argv fs fuel = some r) :
    (argv.length ≠ 2 → r = (42, [], [Msg.usageMsg]))
    ∧ (r.1 = 42 ↔ argv.length ≠ 2)
    ∧ (r.1 = 0 ∨ r.1 = 1 ∨ r.1 = 42)
    ∧ (argv.length = 2 → ∀ m,
        dump_xpriv lib (some (argv.getD 1 "")) fs fuel = some (Except.error m) →
        r = (1, [], [m]))
    ∧ (argv.length = 2 → ∀ lines,
        dump_xpriv lib (some (argv.getD 1 "")) fs fuel = some (Except.ok lines) →
        r = (0, lines, [])) := by
  unfold runMain at h
  by_cases hl : argv.length = 2
  · simp only [hl, ne_eq, not_true_eq_false, if_false] at h
    cases hd : dump_xpriv lib (some (argv.getD 1 "")) fs fuel with
    | none => rw [hd] at h; exact absurd h (by simp)
    | some e =>
      rw [hd] at h
      cases e with
      | error m =>
        dsimp only at h
        simp only [Option.some.injEq] at h
        subst h
        refine ⟨fun hc => absurd hl hc, by simp [hl], by norm_num, ?_, ?_⟩
        · intro _ m2 hm2
          simp only [Option.some.injEq, Except.error.injEq] at hm2
          rw [hm2]
        · intro _ lines hlines
          exact absurd hlines (by simp)
      | ok lines =>
        dsimp only at h
        simp only [Option.some.injEq] at h
        subst h
        refine ⟨fun hc => absurd hl hc, by simp [hl], by norm_num, ?_, ?_⟩
        · intro _ m2 hm2
          exact absurd hm2 (by simp)
        · intro _ lines2 hlines
          simp only [Option.some.injEq, Except.ok.injEq] at hlines
          rw [hlines]
  · simp only [hl, ne_eq, not_false_eq_true, if_true] at h
    simp only [Option.some.injEq] at h
    subst h
    exact ⟨fun _ => rfl, by simp [hl], by norm_num,
      fun h2 => absurd h2 hl, fun h2 => absurd h2 hl⟩

theorem exit_code_convention_witness :
    runMain libOk ["clightning-dumpkeys"] (singleFS "f" secret32) 1
        = some (42, [], [Msg.usageMsg])
    ∧ ((["clightning-dumpkeys"] : List String).length ≠ 2 →
        ((42 : Nat), ([] : List String), [Msg.usageMsg])
          = (42, [], [Msg.usageMsg]))
    ∧ (((42 : Nat), ([] : List String), [Msg.usageMsg]).1 = 42
        ↔ (["clightning-dumpkeys"] : List String).length ≠ 2) :=
  have h := exit_code_convention libOk ["clightning-dumpkeys"]
    (singleFS "f" secret32) 1 (42, [], [Msg.usageMsg]) rfl
  ⟨rfl, h.1, h.2.1⟩

/-- A file system where the default relative filename "hsm_secret" holds a
valid 32-byte secret. -/
def fsDefault : String → Option (List Nat) := singleFS "hsm_secret" secret32

/-- C6 counterexample: invoked without the secret-file argument (argv holds
only the program name) while a readable, valid "hsm_secret" file exists,
the program exits 42 and prints nothing — it does not proceed with the
default file, although the same run with "hsm_secret" passed explicitly
succeeds with exit code 0. -/
theorem no_default_on_missing_arg_counterexample :
    (runMain libOk ["clightning-dumpkeys"] fsDefault 9).map (fun r => r.1)
        = some 42
    ∧ (runMain libOk ["clightning-dumpkeys"] fsDefault 9).map (fun r => r.2.1)
        = some []
    ∧ (runMain libOk ["clightning-dumpkeys", "hsm_secret"] fsDefault 9).map
        (fun r => r.1) = some 0
    ∧ fsDefault "hsm_secret" = some secret32 :=
  ⟨rfl, rfl, rfl, rfl⟩

/-- C6 (amended): when the path argument is omitted the program prints
usage and exits 42 without touching any file; the fixed default relative
filename "hsm_secret" exists only inside `load_hsm` as the fallback for a
NULL path, a case `main` never produces since it always passes argv[1]. -/
theorem missing_arg_usage_exit42 :
    (∀ (lib : Lib) (fs : String → Option (List Nat)) (fuel : Nat)
        (prog : String),
      runMain lib [prog] fs fuel = some (42, [], [Msg.usageMsg]))
    ∧ (∀ (lib : Lib) (fs : String → Option (List Nat)) (fuel : Nat),
      load_hsm lib none fs fuel = load_hsm lib (some "hsm_secret") fs fuel) := by
  constructor
  · intro lib fs fuel prog
    unfold runMain
    norm_num
  · intro lib fs fuel
    rfl

/-- `populate_secretstuff` when the first child derivation fails. -/
theorem populate_child1_fail (lib : Lib) (secret : List Nat) (fuel s : Nat)
    (master : ext_key)
    (hw : whitenLoop lib secret 0 fuel = some (s, master))
    (hc : lib.bip32_key_from_parent master 0 BIP32_FLAG_KEY_PRIVATE = none) :
    populate_secretstuff lib secret fuel
      = some (Except.error Msg.cantDeriveChild) := by
  unfold populate_secretstuff
  rw [hw]
  dsimp only
  rw [hc]

/-- `populate_secretstuff` when the second child derivation fails. -/
theorem populate_child2_fail (lib : Lib) (secret : List Nat) (fuel s : Nat)
    (master child : ext_key)
    (hw : whitenLoop lib secret 0 fuel = some (s, master))
    (hc1 : lib.bip32_key_from_parent master 0 BIP32_FLAG_KEY_PRIVATE
        = some child)
    (hc2 : lib.bip32_key_from_parent child 0 BIP32_FLAG_KEY_PRIVATE = none) :
    populate_secretstuff lib secret fuel
      = some (Except.error Msg.cantDerivePrivate) := by
  unfold populate_secretstuff
  rw [hw]
  dsimp only
  rw [hc1]
  dsimp only
  rw [hc2]

/-- C8: if either fixed-path child derivation fails, the run aborts with
the corresponding message on standard error and exit code 1 and emits no
key output; giving the whitening loop more fuel never changes this — the
failed derivation is not retried with another index or salt. -/
theorem child_derivation_failure_fatal :
    (∀ (lib : Lib) (prog path : String) (fs : String → Option (List Nat))
        (c : List Nat) (fuel s : Nat) (master : ext_key),
      fs path = some c → 32 ≤ c.length →
      whitenLoop lib (c.take 32) 0 fuel = some (s, master) →
      lib.bip32_key_from_parent master 0 BIP32_FLAG_KEY_PRIVATE = none →
      ∀ fuel2, fuel ≤ fuel2 →
        runMain lib [prog, path] fs fuel2
          = some (1, [], [Msg.cantDeriveChild]))
    ∧ (∀ (lib : Lib) (prog path : String) (fs : String → Option (List Nat))
        (c : List Nat) (fuel s : Nat) (master child : ext_key),
      fs path = some c → 32 ≤ c.length →
      whitenLoop lib (c.take 32) 0 fuel = some (s, master) →
      lib.bip32_key_from_parent master 0 BIP32_FLAG_KEY_PRIVATE = some child →
      lib.bip32_key_from_parent child 0 BIP32_FLAG_KEY_PRIVATE = none →
      ∀ fuel2, fuel ≤ fuel2 →
        runMain lib [prog, path] fs fuel2
          = some (1, [], [Msg.cantDerivePrivate])) := by
  constructor
  · intro lib prog path fs c fuel s master hf hlen hw hc fuel2 hle
    rw [runMain_two]
    unfold dump_xpriv
    rw [load_hsm_full lib (some path) fs fuel2 c hf hlen,
      populate_child1_fail lib (c.take 32) fuel2 s master
        (whitenLoop_mono lib (c.take 32) fuel fuel2 0 (s, master) hle hw) hc]
  · intro lib prog path fs c fuel s master child hf hlen hw hc1 hc2 fuel2 hle
    rw [runMain_two]
    unfold dump_xpriv
    rw [load_hsm_full lib (some path) fs fuel2 c hf hlen,
      populate_child2_fail lib (c.take 32) fuel2 s master child
        (whitenLoop_mono lib (c.take 32) fuel fuel2 0 (s, master) hle hw)
        hc1 hc2]

/-- A concrete library whose first child derivation always fails. -/
def libChildFail : Lib :=
  { hkdf_sha256 := fun _ _ _ => List.replicate 32 1
  , bip32_key_from_seed := fun _ _ _ => some keyZero
  , bip32_key_from_parent := fun _ _ _ => none
  , checksum := fun _ => 0 }

/-- A concrete library whose second child derivation fails. -/
def libChild2Fail : Lib :=
  { hkdf_sha256 := fun _ _ _ => List.replicate 32 1
  , bip32_key_from_seed := fun _ _ _ => some keyZero
  , bip32_key_from_parent := fun k _ _ =>
      if k.depth = 0 then some { k with depth := 1 } else none
  , checksum := fun _ => 0 }

theorem child_derivation_failure_fatal_witness :
    runMain libChildFail ["p", "f"] (singleFS "f" secret32) 3
        = some (1, [], [Msg.cantDeriveChild])
    ∧ runMain libChild2Fail ["p", "f"] (singleFS "f" secret32) 3
        = some (1, [], [Msg.cantDerivePrivate]) :=
  ⟨child_derivation_failure_fatal.1 libChildFail "p" "f"
      (singleFS "f" secret32) secret32 1 0 keyZero rfl (by decide) rfl rfl
      3 (by decide),
   child_derivation_failure_fatal.2 libChild2Fail "p" "f"
      (singleFS "f" secret32) secret32 1 0 keyZero
      { keyZero with depth := 1 } rfl (by decide) rfl rfl rfl 3 (by decide)⟩
